import Mathlib

/-!
Shallow embedding of `bplt_reader_core.py`: a decoder for the BPLT binary
plot-data format together with the time-base reconciliation step that merges
heterogeneously sampled channels into one rectangular table.

Modelling conventions:
* byte streams are `List Nat` (one entry per byte) read through an explicit
  position, so `file_handle.read(k)` becomes `hread d pos k` which returns
  fewer than `k` bytes at end of stream, exactly like Python;
* fallible Python code (raised exceptions) is modelled with `Option`/`Except`;
* IEEE-754 values are carried as raw little-endian bit patterns (header
  metadata, whose numeric value no operation inspects) or decoded exactly
  into `ℚ` (channel samples, where the interpolation arithmetic matters).
-/

namespace Bplt

/-- Ascii uppercase of one byte, as Python `str.upper` acts on ascii text. -/
def pyUpper (b : Nat) : Nat := if 97 ≤ b ∧ b ≤ 122 then b - 32 else b

/-- Bytes Python `str.strip` removes, per `str.isspace` on ascii text:
space, tab, LF, VT, FF, CR, and the separator controls 28-31. -/
def isPyWhitespace (b : Nat) : Bool :=
  b == 32 || (9 ≤ b && b ≤ 13) || (28 ≤ b && b ≤ 31)

/-- Python `str.strip`: drop whitespace from both ends. -/
def pyStripBytes (l : List Nat) : List Nat :=
  ((l.dropWhile isPyWhitespace).reverse.dropWhile isPyWhitespace).reverse

/-- Python `bytes.decode("ascii", errors="ignore")`: bytes above 127 are dropped,
the rest map to the corresponding characters. -/
def pyDecodeAscii (l : List Nat) : List Nat := l.filter (fun b => b < 128)

/-- Byte string of an ascii Lean string literal. -/
def strBytes (s : String) : List Nat := s.data.map Char.toNat

/-- Little-endian unsigned value of a byte list (first byte least significant);
`uLE` of 4 bytes models `struct.unpack("<I", …)`, of 8 bytes the `<Q`/`<d`
bit pattern. -/
def uLE : List Nat → Nat
  | [] => 0
  | b :: rest => b + 256 * uLE rest

/-- Model of `file_handle.read(k)` on stream `d` at position `pos`: the bytes
obtained (fewer than `k` at end of stream) and the new position. -/
def hread (d : List Nat) (pos k : Nat) : List Nat × Nat :=
  let bs := (d.drop pos).take k
  (bs, pos + bs.length)

/-! ## String scanning helpers of the decoder -/

/-- The `while` loop shared by `read_until_null` and the skip loop of
`read_channel_name`: accumulate bytes of `l` until a NULL byte or end of
stream; returns the accumulated bytes and how many bytes were consumed
(including the NULL when one was found). -/
def readUntilNullAux : List Nat → List Nat × Nat
  | [] => ([], 0)
  | b :: rest =>
      if b = 0 then ([], 1)
      else
        let r := readUntilNullAux rest
        (b :: r.1, r.2 + 1)

/-- Model of `read_until_null(file_handle)`: bytes until NULL or EOF, decoded
as ascii with undecodable bytes ignored, then stripped. -/
def read_until_null (d : List Nat) (pos : Nat) : List Nat × Nat :=
  let r := readUntilNullAux (d.drop pos)
  (pyStripBytes (pyDecodeAscii r.1), pos + r.2)

/-- The discarding skip loop at the top of `read_channel_name`: consume bytes
until one NULL (inclusive) or EOF. -/
def skipUntilNull (d : List Nat) (pos : Nat) : Nat :=
  pos + (readUntilNullAux (d.drop pos)).2

/-- Digit tail of a Python integer literal, entered right after a digit:
further digits, with single underscores allowed between digits. -/
def pyDigits : Nat → List Nat → Option Nat
  | acc, [] => some acc
  | acc, b :: rest =>
      if 48 ≤ b ∧ b ≤ 57 then pyDigits (acc * 10 + (b - 48)) rest
      else if b = 95 then
        match rest with
        | [] => none
        | c :: rest2 =>
            if 48 ≤ c ∧ c ≤ 57 then pyDigits (acc * 10 + (c - 48)) rest2
            else none
      else none

/-- Whitespace `int(...)` ignores around a literal: space, tab, LF, VT, FF,
CR — narrower than the `str.strip` set, which also removes controls 28-31. -/
def isPyIntSpace (b : Nat) : Bool :=
  b == 32 || (9 ≤ b && b ≤ 13)

/-- Model of Python `int(...)` on the ascii byte string `l`: optional
surrounding whitespace, an optional sign, then at least one decimal digit,
with single underscores permitted between digits. -/
def pyInt (l : List Nat) : Option Int :=
  let num : List Nat → Option Nat := fun s =>
    match s with
    | [] => none
    | b :: rest => if 48 ≤ b ∧ b ≤ 57 then pyDigits (b - 48) rest else none
  match ((l.dropWhile isPyIntSpace).reverse.dropWhile isPyIntSpace).reverse with
  | 43 :: rest => (num rest).map Int.ofNat
  | 45 :: rest => (num rest).map (fun n => -(n : Int))
  | s => (num s).map Int.ofNat

/-- Python `str.replace(pat, "")`: delete every occurrence of `pat`
(left-to-right, non-overlapping).  Fuel equals the length of the scanned
string so the kernel can evaluate it. -/
def replaceAllAux (pat : List Nat) : Nat → List Nat → List Nat
  | 0, s => s
  | _ + 1, [] => []
  | fuel + 1, b :: rest =>
      if pat ≠ [] ∧ pat.isPrefixOf (b :: rest) then
        replaceAllAux pat fuel ((b :: rest).drop pat.length)
      else b :: replaceAllAux pat fuel rest

/-- Python `s.replace(pat, "")`. -/
def replaceAll (pat s : List Nat) : List Nat := replaceAllAux pat s.length s

/-- Python `s.split(sep)` for a one-byte separator `c`. -/
def splitOnByte (c : Nat) : List Nat → List (List Nat)
  | [] => [[]]
  | b :: rest =>
      if b = c then [] :: splitOnByte c rest
      else
        match splitOnByte c rest with
        | [] => [[b]]
        | g :: gs => (b :: g) :: gs

/-- Model of `parse_version`: strip the literal prefix, split on dots, parse
exactly three integers; any failure falls back to the legacy `(1, 0, 0)`. -/
def parse_version (s : List Nat) : Int × Int × Int :=
  let part := replaceAll (strBytes "ECI Binary Plot File Version ") s
  match (splitOnByte 46 part).map pyInt with
  | [some a, some b, some c] => (a, b, c)
  | _ => (1, 0, 0)

/-- The `version and version[0] == 1 and version[1] == 1` test of
`read_channel_name` (`None` is falsy). -/
def isVersion11 (version : Option (Int × Int × Int)) : Bool :=
  version.elim false (fun v => v.1 == 1 && v.2.1 == 1)

/-- Model of `read_channel_name`: v1.1 names are single NULL-terminated,
other versions first consume one NULL-terminated (placeholder) field; a name
decoding to `""` or case-insensitively to `"NULL"` is replaced by `""`. -/
def read_channel_name (d : List Nat) (version : Option (Int × Int × Int))
    (pos : Nat) : List Nat × Nat :=
  let p0 := if isVersion11 version then pos else skipUntilNull d pos
  let r := read_until_null d p0
  (if r.1 = [] ∨ r.1.map pyUpper = strBytes "NULL" then [] else r.1, r.2)

/-! ## Exact decoding of IEEE-754 bit patterns into `ℚ`

`np.frombuffer(…, dtype="<f8"/"<f4")` produces float values; every finite
float is an exact rational, decoded here from the little-endian bit pattern.
Infinities and NaN (maximal exponent) have no rational value and are mapped
to `0`; no claim under consideration evaluates the decoder on such patterns. -/

/-- Exact rational value of a finite IEEE-754 binary64 bit pattern. -/
def f64ToQ (bits : Nat) : ℚ :=
  let s : Nat := bits / 2 ^ 63 % 2
  let e : Nat := bits / 2 ^ 52 % 2 ^ 11
  let m : Nat := bits % 2 ^ 52
  if e = 2047 then 0
  else
    let frac : ℚ := if e = 0 then (m : ℚ) * 2 else ((2 ^ 52 + m : Nat) : ℚ) * 2 ^ e
    let v := frac / 2 ^ 1075
    if s = 1 then -v else v

/-- Exact rational value of a finite IEEE-754 binary32 bit pattern. -/
def f32ToQ (bits : Nat) : ℚ :=
  let s : Nat := bits / 2 ^ 31 % 2
  let e : Nat := bits / 2 ^ 23 % 2 ^ 8
  let m : Nat := bits % 2 ^ 23
  if e = 255 then 0
  else
    let frac : ℚ := if e = 0 then (m : ℚ) * 2 else ((2 ^ 23 + m : Nat) : ℚ) * 2 ^ e
    let v := frac / 2 ^ 150
    if s = 1 then -v else v

/-- Split a byte list into `n` little-endian float64 values, as
`np.frombuffer(time_bytes, dtype="<f8", count=n)`. -/
def takeF64s : Nat → List Nat → List ℚ
  | 0, _ => []
  | n + 1, bs => f64ToQ (uLE (bs.take 8)) :: takeF64s n (bs.drop 8)

/-- Split a byte list into `n` little-endian float32 values, as
`np.frombuffer(data_bytes, dtype="<f4", count=n)`. -/
def takeF32s : Nat → List Nat → List ℚ
  | 0, _ => []
  | n + 1, bs => f32ToQ (uLE (bs.take 4)) :: takeF32s n (bs.drop 4)

/-! ## TimeBaseReconciler: `upsample_and_combine_channels`

The per-channel frame `pd.DataFrame({"Time": time_values, name: data_values})`
is the pair of its two columns.  The merged table is the reference `Time`
column followed by one value column per channel in first-seen order, which is
exactly what `pd.concat([Time frame] + channel frames, axis=1)` produces on
the range-indexed frames built here. -/

/-- One decoded channel: the `Time` column and the value column of the
per-channel DataFrame (equal length for every frame built by `read_data`). -/
structure DF where
  time : List ℚ
  vals : List ℚ
deriving DecidableEq

/-- Value at `t` of the line through points `p` and `q`, the arithmetic scipy
performs on one linear segment: `slope = (y1 - y0)/(x1 - x0)`,
`y = y0 + slope*(t - x0)`. -/
def linterp (p q : ℚ × ℚ) (t : ℚ) : ℚ :=
  p.2 + (q.2 - p.2) * (t - p.1) / (q.1 - p.1)

/-- Piecewise-linear interpolation over the sorted points `p :: q :: rest`
with linear extrapolation outside the range, as `scipy.interpolate.interp1d`
with `kind="linear"`, `bounds_error=False`, `fill_value="extrapolate"`
evaluates: the segment whose right endpoint is the first `x` with `t ≤ x`
(clipped to the first/last segment outside the range). -/
def interpPts : (ℚ × ℚ) → (ℚ × ℚ) → List (ℚ × ℚ) → ℚ → ℚ
  | p, q, [], t => linterp p q t
  | p, q, r :: rest, t => if t ≤ q.1 then linterp p q t else interpPts q r rest t

/-- Model of `scipy.interpolate.interp1d(x, y, kind="linear",
bounds_error=False, fill_value="extrapolate")`.  interp1d raises unless `x`
and `y` have equal length and at least 2 entries (`none` here), and sorts the
points by `x` before interpolating (`assume_sorted` defaults to `False`). -/
def interp1d (xs ys : List ℚ) : Option (ℚ → ℚ) :=
  if xs.length = ys.length then
    match (xs.zip ys).insertionSort (fun a b => a.1 ≤ b.1) with
    | p :: q :: rest => some (interpPts p q rest)
    | _ => none
  else none

/-- The `max(df.shape[0] for df in channel_dfs.values())` bound (0 on the
empty mapping, where Python `max` would raise; `upsample_and_combine_channels`
is modelled as `none` there). -/
def maxSamples {ν : Type} (l : List (ν × DF)) : Nat :=
  l.foldl (fun a x => max a x.2.time.length) 0

/-- One comparison step of Python `max` with `key=lambda x: x[1].shape[0]`:
the current best is replaced only on a strictly larger key, so ties resolve
to the first-seen entry. -/
def pickStep {ν : Type} (best y : ν × DF) : ν × DF :=
  if best.2.time.length < y.2.time.length then y else best

/-- The `max(channel_dfs.items(), key=lambda x: x[1].shape[0])` call. -/
def pickRef {ν : Type} (l : List (ν × DF)) : Option (ν × DF) :=
  match l with
  | [] => none
  | x :: xs => some (xs.foldl pickStep x)

/-- The `channel_data` loop body: channels shorter than the reference are
resampled onto the reference time axis `rt`, the rest keep their values
verbatim (`df[name].values`).  A `none` from `interp1d` models the
`ValueError` scipy raises, aborting the whole combine step. -/
def buildChannelData {ν : Type} (rt : List ℚ) (m : Nat) :
    List (ν × DF) → Option (List (ν × List ℚ))
  | [] => some []
  | x :: rest =>
      let c :=
        if x.2.time.length < m then
          (interp1d x.2.time x.2.vals).map (fun f => (x.1, rt.map f))
        else some (x.1, x.2.vals)
      match c with
      | none => none
      | some col => (buildChannelData rt m rest).map (col :: ·)

/-- Model of `upsample_and_combine_channels`: the merged table as the
reference `Time` column paired with the value columns in first-seen channel
order; `none` models an uncaught exception (empty mapping, or scipy refusing
an interpolation input). -/
def upsample_and_combine_channels {ν : Type} (l : List (ν × DF)) :
    Option (List ℚ × List (ν × List ℚ)) :=
  match pickRef l with
  | none => none
  | some r =>
      match buildChannelData r.2.time (maxSamples l) l with
      | none => none
      | some cols => some (r.2.time, cols)

/-! ## HeaderDecoder: `read_header_from_handle` and its record readers -/

/-- Error taxonomy of the pipeline, one constructor per `raise` site that can
escape to the caller: the two `MalformedHeader` checks, the two
`TruncatedStream` checks on fixed-size header fields, the `EmptyChannelSet`
check of `read_data`, the size guard of `convert_bplt_to_csv`, and the
`ValueError` scipy raises on an uninterpolable channel. -/
inductive BpltErr where
  | badIdentifier
  | badVersion
  | shortCounts
  | shortTimeDelta
  | emptyChannelSet
  | sizeLimitExceeded
  | interpFailure
deriving DecidableEq

/-- One plot-property record; `doubles` holds raw float64 bit patterns. -/
structure PlotProp where
  string1 : List Nat
  string2 : List Nat
  integers : List Nat
  doubles : Nat × Nat
deriving DecidableEq

/-- One marker record; `double_value` holds the raw float64 bit pattern. -/
structure Marker where
  double_value : Nat
  string1 : List Nat
  string2 : List Nat
  string3 : List Nat
deriving DecidableEq

/-- Model of `read_plot_property_safe`: `none` models the `ValueError` on
incomplete integers (with the stream advanced past what was consumed, as the
Python handle is); a short doubles read is not an error and leaves `(0, 0)`. -/
def read_plot_property_safe (d : List Nat) (version : Option (Int × Int × Int))
    (pos : Nat) : Option PlotProp × Nat :=
  let skipDoubles := version.elim false (fun v => v.1 == 4 && v.2.1 == 1)
  let singleString := version.elim false (fun v => v.1 == 1 && v.2.1 == 1)
  let r1 := read_until_null d pos
  let r2 := if singleString then ([], r1.2) else read_until_null d r1.2
  let ri := hread d r2.2 20
  if ri.1.length < 20 then (none, ri.2)
  else
    let ints := [uLE (ri.1.take 4), uLE ((ri.1.drop 4).take 4),
      uLE ((ri.1.drop 8).take 4), uLE ((ri.1.drop 12).take 4),
      uLE ((ri.1.drop 16).take 4)]
    if skipDoubles then (some ⟨r1.1, r2.1, ints, (0, 0)⟩, ri.2)
    else
      let rd := hread d ri.2 16
      let dbl := if 16 ≤ rd.1.length then (uLE (rd.1.take 8), uLE (rd.1.drop 8))
        else (0, 0)
      (some ⟨r1.1, r2.1, ints, dbl⟩, rd.2)

/-- Model of `read_marker`: `struct.unpack("<d", file_handle.read(8))` raises
(`none`) when fewer than 8 bytes remain; the three strings always succeed. -/
def read_marker (d : List Nat) (pos : Nat) : Option Marker × Nat :=
  let rd := hread d pos 8
  if rd.1.length < 8 then (none, rd.2)
  else
    let r1 := read_until_null d rd.2
    let r2 := read_until_null d r1.2
    let r3 := read_until_null d r2.2
    (some ⟨uLE rd.1, r1.1, r2.1, r3.1⟩, r3.2)

/-- The plot-property loop of the header: read up to `k` records, stopping at
the first failed record while keeping the ones already read. -/
def readPlotProps (d : List Nat) (version : Option (Int × Int × Int)) :
    Nat → Nat → List PlotProp × Nat
  | 0, pos => ([], pos)
  | k + 1, pos =>
      match read_plot_property_safe d version pos with
      | (none, p) => ([], p)
      | (some prop, p) =>
          let r := readPlotProps d version k p
          (prop :: r.1, r.2)

/-- The marker loop of the header, with the same stop-on-failure policy. -/
def readMarkers (d : List Nat) : Nat → Nat → List Marker × Nat
  | 0, pos => ([], pos)
  | k + 1, pos =>
      match read_marker d pos with
      | (none, p) => ([], p)
      | (some mk, p) =>
          let r := readMarkers d k p
          (mk :: r.1, r.2)

/-- The channel-name loop of the header: names decoding to `""` are not
appended (`if channel_name:`). -/
def readChannelNames (d : List Nat) (version : Int × Int × Int) :
    Nat → Nat → List (List Nat) × Nat
  | 0, pos => ([], pos)
  | n + 1, pos =>
      let r := read_channel_name d (some version) pos
      let rest := readChannelNames d version n r.2
      (if r.1 = [] then rest.1 else r.1 :: rest.1, rest.2)

/-- The optional trailing fields of the header (the block guarded by the
outer `try`; every read inside it is length-guarded or per-record caught, so
the block never fails, matching the dead outer `except`). -/
structure ExtFields where
  plot_properties_count : Nat
  double_1 : Nat
  integer_1 : Nat
  double_2 : Nat
  integer_2 : Nat
  plot_properties : List PlotProp
  num_markers : Nat
  markers : List Marker
  final_integer_1 : Nat
  final_integer_2 : Nat
deriving DecidableEq

/-- Best-effort decoding of the extended metadata block (header lines after
the channel-name table): each scalar keeps its zero default when the stream
is short, record loops stop at the first failure, and the two final integers
are read only when the marker-count field was present. -/
def readExtended (d : List Nat) (version : Int × Int × Int) (pos : Nat) :
    ExtFields × Nat :=
  let rc := hread d pos 4
  if rc.1.length < 4 then (⟨0, 0, 0, 0, 0, [], 0, [], 0, 0⟩, rc.2)
  else
    let ppc := uLE rc.1
    let rd1 := hread d rc.2 8
    let d1 := if 8 ≤ rd1.1.length then uLE rd1.1 else 0
    let ri1 := hread d rd1.2 1
    let i1 := if 1 ≤ ri1.1.length then uLE ri1.1 else 0
    let rd2 := hread d ri1.2 8
    let d2 := if 8 ≤ rd2.1.length then uLE rd2.1 else 0
    let ri2 := hread d rd2.2 4
    let i2 := if 4 ≤ ri2.1.length then uLE ri2.1 else 0
    let rp := readPlotProps d (some version) ppc ri2.2
    let rmc := hread d rp.2 4
    if rmc.1.length < 4 then (⟨ppc, d1, i1, d2, i2, rp.1, 0, [], 0, 0⟩, rmc.2)
    else
      let mc := uLE rmc.1
      let rm := readMarkers d mc rmc.2
      let rf := hread d rm.2 8
      if 8 ≤ rf.1.length then
        (⟨ppc, d1, i1, d2, i2, rp.1, mc, rm.1, uLE (rf.1.take 4),
          uLE (rf.1.drop 4)⟩, rf.2)
      else (⟨ppc, d1, i1, d2, i2, rp.1, mc, rm.1, 0, 0⟩, rf.2)

/-- The dictionary returned by `read_header_from_handle`. -/
structure Header where
  file_identifier : List Nat
  version : List Nat
  parsed_version : Int × Int × Int
  comments : List Nat
  num_columns : Nat
  num_rows : Nat
  time_delta : Nat
  channel_names : List (List Nat)
  plot_properties_count : Nat
  double_1 : Nat
  integer_1 : Nat
  double_2 : Nat
  integer_2 : Nat
  plot_properties : List PlotProp
  num_markers : Nat
  markers : List Marker
  final_integer_1 : Nat
  final_integer_2 : Nat
  header_position : Nat
deriving DecidableEq

/-- Model of `read_header_from_handle`: the four structural checks raise, the
channel-name table and the extended block never do; `header_position` is
`file_handle.tell()` at the end.  Result carries the final position too. -/
def read_header_from_handle (d : List Nat) (pos : Nat) :
    Except BpltErr (Header × Nat) :=
  let r1 := read_until_null d pos
  if ¬((strBytes "ECI Binary Plot Data File").isPrefixOf r1.1) then
    .error .badIdentifier
  else
    let r2 := read_until_null d r1.2
    if ¬((strBytes "ECI Binary Plot File Version").isPrefixOf r2.1) then
      .error .badVersion
    else
      let vt := parse_version r2.1
      let r3 := read_until_null d r2.2
      let rc := hread d r3.2 8
      if rc.1.length < 8 then .error .shortCounts
      else
        let ncols := uLE (rc.1.take 4)
        let nrows := uLE (rc.1.drop 4)
        let rt := hread d rc.2 8
        if rt.1.length < 8 then .error .shortTimeDelta
        else
          let rn := readChannelNames d vt ncols rt.2
          let re := readExtended d vt rn.2
          .ok (⟨r1.1, r2.1, vt, r3.1, ncols, nrows, uLE rt.1, rn.1,
            re.1.plot_properties_count, re.1.double_1, re.1.integer_1,
            re.1.double_2, re.1.integer_2, re.1.plot_properties,
            re.1.num_markers, re.1.markers, re.1.final_integer_1,
            re.1.final_integer_2, re.2⟩, re.2)

/-- Model of `read_header`: open the file and decode from offset 0. -/
def read_header (d : List Nat) : Except BpltErr (Header × Nat) :=
  read_header_from_handle d 0

/-! ## ChannelDataDecoder: `read_data` -/

/-- Python `dict` assignment `m[k] = v` on an insertion-ordered association
list: an existing key keeps its position and gets the new value, a new key is
appended. -/
def dictInsert {ν α : Type} [DecidableEq ν] (k : ν) (v : α) :
    List (ν × α) → List (ν × α)
  | [] => [(k, v)]
  | (k1, v1) :: rest =>
      if k1 = k then (k, v) :: rest else (k1, v1) :: dictInsert k v rest

/-- Python `dict` lookup on the association-list model. -/
def dictFind {ν α : Type} [DecidableEq ν] (k : ν) :
    List (ν × α) → Option α
  | [] => none
  | (k1, v1) :: rest => if k1 = k then some v1 else dictFind k rest

/-- One iteration of the `read_data` loop: `none` (and the advanced position)
when the channel is skipped — missing count bytes, zero elements, incomplete
time data, or incomplete value data — otherwise the decoded frame. -/
def readChannelBlock (d : List Nat) (pos : Nat) : Option DF × Nat :=
  let rc := hread d pos 4
  if rc.1.length < 4 then (none, rc.2)
  else
    let n := uLE rc.1
    if n = 0 then (none, rc.2)
    else
      let rt := hread d rc.2 (8 * n)
      if rt.1.length < 8 * n then (none, rt.2)
      else
        let rv := hread d rt.2 (4 * n)
        if rv.1.length < 4 * n then (none, rv.2)
        else (some ⟨takeF64s n rt.1, takeF32s n rv.1⟩, rv.2)

/-- The `read_data` loop over the channel names, accumulating the
`channel_dfs` dictionary in iteration order. -/
def readDataCore (d : List Nat) :
    List (List Nat) → Nat → List (List Nat × DF) → List (List Nat × DF) × Nat
  | [], pos, acc => (acc, pos)
  | nm :: rest, pos, acc =>
      match readChannelBlock d pos with
      | (none, p) => readDataCore d rest p acc
      | (some df, p) => readDataCore d rest p (dictInsert nm df acc)

/-- Model of `read_data`: decode every channel (skipping unreadable ones) and
fail with `EmptyChannelSet` exactly when no channel survived. -/
def read_data (d : List Nat) (channel_names : List (List Nat)) (pos : Nat) :
    Except BpltErr (List (List Nat × DF) × Nat) :=
  let r := readDataCore d channel_names pos []
  if r.1 = [] then .error .emptyChannelSet else .ok r

/-! ## ConversionPipeline: `read_bplt_file` and `convert_bplt_to_csv` -/

/-- Model of `read_bplt_file`: with no pre-read header, decode the header and
continue into the data section; with a pre-read header, seek to
`header_position` first. -/
def read_bplt_file (d : List Nat) (header : Option Header) :
    Except BpltErr (Header × List (List Nat × DF)) :=
  match header with
  | none => do
      let rh ← read_header_from_handle d 0
      let rd ← read_data d rh.1.channel_names rh.2
      .ok (rh.1, rd.1)
  | some h => do
      let rd ← read_data d h.channel_names h.header_position
      .ok (h, rd.1)

/-- Model of `convert_bplt_to_csv` up to the merged table handed to
`DataFrame.to_csv`; `maxCells` is the `BPLT_MAX_CELLS` environment value
(default 5 000 000), made an explicit parameter. -/
def convert_bplt_to_csv (d : List Nat) (maxCells : Int) :
    Except BpltErr (List ℚ × List (List Nat × List ℚ)) := do
  let rh ← read_header d
  let header := rh.1
  let estimated : Int :=
    if header.num_columns ≠ 0 ∧ header.num_rows ≠ 0 then
      (header.num_columns : Int) * (header.num_rows : Int)
    else 0
  if maxCells > 0 ∧ estimated > maxCells then .error .sizeLimitExceeded
  else
    let bf ← read_bplt_file d (some header)
    match upsample_and_combine_channels bf.2 with
    | some t => .ok t
    | none => .error .interpFailure

/-! ## Helper lemmas about the header decoder -/

/-- The four structural conditions of header decoding: magic identifier,
version prefix, and availability of the 8 count bytes and the 8 time-delta
bytes.  Everything else in the header is decoded best-effort. -/
def structuralOk (d : List Nat) (pos : Nat) : Prop :=
  let r1 := read_until_null d pos
  let r2 := read_until_null d r1.2
  let r3 := read_until_null d r2.2
  let rc := hread d r3.2 8
  let rt := hread d rc.2 8
  (strBytes "ECI Binary Plot Data File").isPrefixOf r1.1 = true ∧
  (strBytes "ECI Binary Plot File Version").isPrefixOf r2.1 = true ∧
  8 ≤ rc.1.length ∧ 8 ≤ rt.1.length

/-- The value `read_header_from_handle` returns when all four structural
checks pass, written as a standalone definition so that facts like
`header_position = final position` hold by `rfl`. -/
def mkHeaderOk (d : List Nat) (pos : Nat) : Header × Nat :=
  let r1 := read_until_null d pos
  let r2 := read_until_null d r1.2
  let vt := parse_version r2.1
  let r3 := read_until_null d r2.2
  let rc := hread d r3.2 8
  let ncols := uLE (rc.1.take 4)
  let nrows := uLE (rc.1.drop 4)
  let rt := hread d rc.2 8
  let rn := readChannelNames d vt ncols rt.2
  let re := readExtended d vt rn.2
  (⟨r1.1, r2.1, vt, r3.1, ncols, nrows, uLE rt.1, rn.1,
    re.1.plot_properties_count, re.1.double_1, re.1.integer_1,
    re.1.double_2, re.1.integer_2, re.1.plot_properties,
    re.1.num_markers, re.1.markers, re.1.final_integer_1,
    re.1.final_integer_2, re.2⟩, re.2)

theorem mkHeaderOk_position (d : List Nat) (pos : Nat) :
    (mkHeaderOk d pos).1.header_position = (mkHeaderOk d pos).2 := rfl

theorem read_header_eq_of_structuralOk (d : List Nat) (pos : Nat)
    (hs : structuralOk d pos) :
    read_header_from_handle d pos = Except.ok (mkHeaderOk d pos) := by
  obtain ⟨c1, c2, c3, c4⟩ := hs
  have c3n : ¬((hread d (read_until_null d
      (read_until_null d (read_until_null d pos).2).2).2 8).1.length < 8) := by omega
  have c4n : ¬((hread d (hread d (read_until_null d
      (read_until_null d (read_until_null d pos).2).2).2 8).2 8).1.length < 8) := by
    omega
  unfold read_header_from_handle mkHeaderOk
  simp [c1, c2, c3n, c4n]

theorem read_header_ok_iff (d : List Nat) (pos : Nat) :
    (∃ r, read_header_from_handle d pos = Except.ok r) ↔ structuralOk d pos := by
  constructor
  · rintro ⟨r, hr⟩
    by_contra hns
    unfold read_header_from_handle at hr
    unfold structuralOk at hns
    by_cases h1 :
        (strBytes "ECI Binary Plot Data File").isPrefixOf (read_until_null d pos).1 = true
    · by_cases h2 :
          (strBytes "ECI Binary Plot File Version").isPrefixOf
            (read_until_null d (read_until_null d pos).2).1 = true
      · by_cases h3 :
            (hread d (read_until_null d
              (read_until_null d (read_until_null d pos).2).2).2 8).1.length < 8
        · simp [h1, h2, h3] at hr
        · by_cases h4 :
              (hread d (hread d (read_until_null d
                (read_until_null d (read_until_null d pos).2).2).2 8).2 8).1.length < 8
          · simp [h1, h2, h3, h4] at hr
          · refine hns ⟨h1, h2, ?_, ?_⟩ <;> omega
      · simp [h1, h2] at hr
    · simp [h1] at hr
  · intro hs
    exact ⟨mkHeaderOk d pos, read_header_eq_of_structuralOk d pos hs⟩

theorem read_header_error_cases (d : List Nat) (pos : Nat) (e : BpltErr)
    (h : read_header_from_handle d pos = Except.error e) :
    e = .badIdentifier ∨ e = .badVersion ∨ e = .shortCounts ∨ e = .shortTimeDelta := by
  unfold read_header_from_handle at h
  by_cases h1 :
      (strBytes "ECI Binary Plot Data File").isPrefixOf (read_until_null d pos).1 = true
  · by_cases h2 :
        (strBytes "ECI Binary Plot File Version").isPrefixOf
          (read_until_null d (read_until_null d pos).2).1 = true
    · by_cases h3 :
          (hread d (read_until_null d
            (read_until_null d (read_until_null d pos).2).2).2 8).1.length < 8
      · simp [h1, h2, h3] at h
        exact Or.inr (Or.inr (Or.inl h.symm))
      · by_cases h4 :
            (hread d (hread d (read_until_null d
              (read_until_null d (read_until_null d pos).2).2).2 8).2 8).1.length < 8
        · simp [h1, h2, h3, h4] at h
          exact Or.inr (Or.inr (Or.inr h.symm))
        · simp [h1, h2, h3, h4] at h
    · simp [h1, h2] at h
      exact Or.inr (Or.inl h.symm)
  · simp [h1] at h
    exact Or.inl h.symm

theorem read_header_pos_eq (d : List Nat) (pos : Nat) (h : Header) (p : Nat)
    (hok : read_header_from_handle d pos = Except.ok (h, p)) :
    h.header_position = p := by
  have hs : structuralOk d pos := (read_header_ok_iff d pos).mp ⟨(h, p), hok⟩
  have heq := read_header_eq_of_structuralOk d pos hs
  rw [hok] at heq
  have hpair : (h, p) = mkHeaderOk d pos := by
    injection heq with h1
  rw [show h = (mkHeaderOk d pos).1 from by rw [← hpair],
    show p = (mkHeaderOk d pos).2 from by rw [← hpair]]
  exact mkHeaderOk_position d pos

theorem readExtended_eof (d : List Nat) (v : Int × Int × Int) (pos : Nat)
    (h : d.length ≤ pos) :
    readExtended d v pos = (⟨0, 0, 0, 0, 0, [], 0, [], 0, 0⟩, pos) := by
  have hd : d.drop pos = [] := List.drop_eq_nil_of_le h
  unfold readExtended
  simp [hread, hd]

theorem readPlotProps_stop (d : List Nat) (v : Option (Int × Int × Int))
    (k pos : Nat) (h : (read_plot_property_safe d v pos).1 = none) :
    readPlotProps d v (k + 1) pos = ([], (read_plot_property_safe d v pos).2) := by
  have hx : read_plot_property_safe d v pos =
      (none, (read_plot_property_safe d v pos).2) := by
    rw [← h]
  rw [readPlotProps, hx]

theorem readMarkers_stop (d : List Nat) (k pos : Nat)
    (h : (read_marker d pos).1 = none) :
    readMarkers d (k + 1) pos = ([], (read_marker d pos).2) := by
  have hx : read_marker d pos = (none, (read_marker d pos).2) := by
    rw [← h]
  rw [readMarkers, hx]

theorem readUntilNullAux_all_ne (l : List Nat) (h : ∀ b ∈ l, b ≠ 0) :
    readUntilNullAux l = (l, l.length) := by
  induction l with
  | nil => rfl
  | cons b rest ih =>
      have hb : b ≠ 0 := h b (List.mem_cons_self b rest)
      simp [readUntilNullAux, hb,
        ih (fun x hx => h x (List.mem_cons_of_mem b hx))]

theorem read_until_null_eof (d : List Nat) (pos : Nat) (h : d.length ≤ pos) :
    read_until_null d pos = ([], pos) := by
  have hd : d.drop pos = [] := List.drop_eq_nil_of_le h
  simp [read_until_null, hd, readUntilNullAux, pyDecodeAscii, pyStripBytes]

theorem read_channel_name_eof (d : List Nat) (pos : Nat)
    (v : Option (Int × Int × Int)) (h : d.length ≤ pos) :
    read_channel_name d v pos = ([], pos) := by
  have hd : d.drop pos = [] := List.drop_eq_nil_of_le h
  unfold read_channel_name skipUntilNull
  simp [hd, readUntilNullAux, read_until_null_eof d pos h]

theorem exceptBind_error {ε α β : Type} (e : ε) (f : α → Except ε β) :
    (Except.error e >>= f) = Except.error e := rfl

theorem exceptBind_ok {ε α β : Type} (a : α) (f : α → Except ε β) :
    (Except.ok a >>= f) = f a := rfl

theorem read_bplt_file_some_error (d : List Nat) (h : Header) (e : BpltErr)
    (he : read_bplt_file d (some h) = Except.error e) : e = .emptyChannelSet := by
  unfold read_bplt_file read_data at he
  dsimp only at he
  by_cases hr : (readDataCore d h.channel_names h.header_position []).1 = []
  · rw [if_pos hr, exceptBind_error] at he
    injection he with he
    exact he.symm
  · rw [if_neg hr, exceptBind_ok] at he
    simp at he

/-! ## Sample streams used by the witnesses -/

/-- A complete, empty extended metadata block: zero plot properties, the four
optional scalars, a zero marker count, and the two final integers. -/
def extBlock : List Nat :=
  [0, 0, 0, 0] ++ List.replicate 8 0 ++ [0] ++ List.replicate 8 0 ++
  [0, 0, 0, 0] ++ [0, 0, 0, 0] ++ List.replicate 8 0

/-- A well-formed v1.1.0 stream: one channel `Ch1`, one sample, a complete
extended block, then the channel-data section. -/
def sample7 : List Nat :=
  strBytes "ECI Binary Plot Data File" ++ [0] ++
  strBytes "ECI Binary Plot File Version 1.1.0" ++ [0] ++
  [0] ++ [1, 0, 0, 0, 1, 0, 0, 0] ++ List.replicate 8 0 ++
  strBytes "Ch1" ++ [0] ++ extBlock ++
  [1, 0, 0, 0] ++ List.replicate 8 0 ++ List.replicate 4 0

/-- The header `sample7` decodes to; its `header_position` (119) is the exact
offset of the first channel's count field in `sample7`. -/
def sample7Header : Header :=
  ⟨strBytes "ECI Binary Plot Data File",
   strBytes "ECI Binary Plot File Version 1.1.0",
   (1, 1, 0), [], 1, 1, 0, [[67, 104, 49]], 0, 0, 0, 0, 0, [], 0, [], 0, 0, 119⟩

/-- A header-only stream (0 columns, 0 rows) ending right after the
time-delta field, so the whole extended block is missing. -/
def sampleHeaderOnly : List Nat :=
  strBytes "ECI Binary Plot Data File" ++ [0] ++
  strBytes "ECI Binary Plot File Version 4.2.0" ++ [0] ++
  [0] ++ List.replicate 8 0 ++ List.replicate 8 0

/-- A stream that ends in the middle of its channel-name table: 2 declared
columns but the bytes stop inside the first name. -/
def sampleTruncNames : List Nat :=
  strBytes "ECI Binary Plot Data File" ++ [0] ++
  strBytes "ECI Binary Plot File Version 4.2.0" ++ [0] ++
  [0] ++ [2, 0, 0, 0, 3, 0, 0, 0] ++ List.replicate 8 0 ++
  [0] ++ strBytes "C"

/-! ## Claims C7, C8, C9 -/

/-- C7: whenever the header decodes, the recorded `header_position` equals the
stream offset immediately after the extended metadata block (the final
position of the header decode), and reading the file with the pre-read header
(which seeks to `header_position`) consumes the per-channel data from exactly
that offset — it agrees with reading straight through. -/
theorem C7_header_position_is_data_offset :
    ∀ (d : List Nat) (h : Header) (p : Nat),
      read_header_from_handle d 0 = Except.ok (h, p) →
      h.header_position = p ∧
        read_bplt_file d (some h) = read_bplt_file d none := by
  intro d h p hok
  have hpos := read_header_pos_eq d 0 h p hok
  refine ⟨hpos, ?_⟩
  unfold read_bplt_file
  dsimp only
  simp only [hok, exceptBind_ok]
  rw [hpos]

/-- C7 witness: on the concrete well-formed stream `sample7`, whose header
occupies bytes 0–118 and whose first channel count field sits at offset 119. -/
theorem C7_witness :
    sample7Header.header_position = 119 ∧
      read_bplt_file sample7 (some sample7Header) = read_bplt_file sample7 none := by
  have h := C7_header_position_is_data_offset sample7 sample7Header 119 (by rfl)
  exact ⟨h.1, h.2⟩

/-- C8: header decoding succeeds exactly when the structural fields do (magic
identifier, version prefix, the 8 count bytes and the 8 time-delta bytes),
regardless of the extended metadata block; a missing extended block leaves
every optional field at its zero default; a failing plot-property or marker
read stops further reads of that record kind while keeping the records
already read. -/
theorem C8_structural_only_failures :
    (∀ (d : List Nat) (pos : Nat),
      (∃ r, read_header_from_handle d pos = Except.ok r) ↔ structuralOk d pos) ∧
    (∀ (d : List Nat) (v : Int × Int × Int) (pos : Nat), d.length ≤ pos →
      readExtended d v pos = (⟨0, 0, 0, 0, 0, [], 0, [], 0, 0⟩, pos)) ∧
    (∀ (d : List Nat) (v : Option (Int × Int × Int)) (k pos : Nat),
      (read_plot_property_safe d v pos).1 = none →
      readPlotProps d v (k + 1) pos = ([], (read_plot_property_safe d v pos).2)) ∧
    (∀ (d : List Nat) (k pos : Nat), (read_marker d pos).1 = none →
      readMarkers d (k + 1) pos = ([], (read_marker d pos).2)) :=
  ⟨read_header_ok_iff, readExtended_eof, readPlotProps_stop, readMarkers_stop⟩

/-- C8 witness: the stream `sampleHeaderOnly` ends right after the time-delta
field, yet header decoding succeeds. -/
theorem C8_witness : ∃ r, read_header_from_handle sampleHeaderOnly 0 = Except.ok r :=
  (C8_structural_only_failures.1 sampleHeaderOnly 0).mpr
    (by simp only [structuralOk]; decide)

/-- C9: null-terminated reads are total — without a NULL they return the
bytes accumulated up to end of stream, at end of stream they return the empty
string, and `read_channel_name` likewise never fails; header decoding errors
can only be the two malformed-prefix checks or the two fixed-size
(`TruncatedStream`-style) checks, and every structurally valid stream — in
particular one truncated anywhere inside the channel-name table — still
yields a decoded header. -/
theorem C9_null_reads_total_at_eof :
    (∀ (d : List Nat) (pos : Nat), pos ≤ d.length → (∀ b ∈ d.drop pos, b ≠ 0) →
      read_until_null d pos = (pyStripBytes (pyDecodeAscii (d.drop pos)), d.length)) ∧
    (∀ (d : List Nat) (pos : Nat) (v : Option (Int × Int × Int)), d.length ≤ pos →
      read_until_null d pos = ([], pos) ∧ read_channel_name d v pos = ([], pos)) ∧
    (∀ (d : List Nat) (pos : Nat) (e : BpltErr),
      read_header_from_handle d pos = Except.error e →
      e = .badIdentifier ∨ e = .badVersion ∨ e = .shortCounts ∨ e = .shortTimeDelta) ∧
    (∀ (d : List Nat) (pos : Nat), structuralOk d pos →
      ∃ r, read_header_from_handle d pos = Except.ok r) := by
  refine ⟨?_, ?_, read_header_error_cases, ?_⟩
  · intro d pos hle hnn
    unfold read_until_null
    rw [readUntilNullAux_all_ne (d.drop pos) hnn]
    have : (d.drop pos).length = d.length - pos := List.length_drop pos d
    simp only [this]
    congr 1
    omega
  · intro d pos v hle
    exact ⟨read_until_null_eof d pos hle, read_channel_name_eof d pos v hle⟩
  · intro d pos hs
    exact ⟨mkHeaderOk d pos, read_header_eq_of_structuralOk d pos hs⟩

/-- C9 witness: `sampleTruncNames` stops in the middle of its channel-name
table (2 declared columns, bytes ending inside the first name), and header
decoding still succeeds. -/
theorem C9_witness : ∃ r, read_header_from_handle sampleTruncNames 0 = Except.ok r :=
  C9_null_reads_total_at_eof.2.2.2 sampleTruncNames 0
    (by simp only [structuralOk]; decide)

/-! ## Claim C3 -/

/-- A stream declaring 1000 columns and 10000 rows whose bytes end right
after the time-delta field, so no valid channel data follows the header. -/
def sampleBig : List Nat :=
  strBytes "ECI Binary Plot Data File" ++ [0] ++
  strBytes "ECI Binary Plot File Version 4.2.0" ++ [0] ++
  [0] ++ [232, 3, 0, 0, 16, 39, 0, 0] ++ List.replicate 8 0

/-- The header `sampleBig` decodes to: declared shape 1000 × 10000 but an
empty filtered channel-name list. -/
def sampleBigHeader : Header :=
  ⟨strBytes "ECI Binary Plot Data File",
   strBytes "ECI Binary Plot File Version 4.2.0",
   (4, 2, 0), [], 1000, 10000, 0, [], 0, 0, 0, 0, 0, [], 0, [], 0, 0, 78⟩

/-- C3: with a positive configured maximum `m`, a decoded header whose
declared `column_count * row_count` product exceeds `m` makes the pipeline
fail with the size-limit error for every stream content after the header
(so before any channel data is read, and using the declared counts, not the
filtered channel-name list); with `m ≤ 0` the guard is disabled and the
size-limit error can never occur. -/
theorem C3_size_guard :
    ∀ (d : List Nat) (m : Int),
      (∀ (h : Header) (p : Nat), read_header_from_handle d 0 = Except.ok (h, p) →
        0 < m → m < (h.num_columns : Int) * (h.num_rows : Int) →
        convert_bplt_to_csv d m = Except.error .sizeLimitExceeded) ∧
      (m ≤ 0 → convert_bplt_to_csv d m ≠ Except.error .sizeLimitExceeded) := by
  intro d m
  constructor
  · intro h p hok hm hprod
    have hc : h.num_columns ≠ 0 := by
      intro h0
      rw [h0] at hprod
      simp at hprod
      omega
    have hr : h.num_rows ≠ 0 := by
      intro h0
      rw [h0] at hprod
      simp at hprod
      omega
    unfold convert_bplt_to_csv read_header
    simp only [hok, exceptBind_ok]
    have hest :
        (if h.num_columns ≠ 0 ∧ h.num_rows ≠ 0 then
          (h.num_columns : Int) * (h.num_rows : Int) else 0) =
          (h.num_columns : Int) * (h.num_rows : Int) := if_pos ⟨hc, hr⟩
    rw [hest, if_pos ⟨hm, hprod⟩]
  · intro hm0 hcontra
    unfold convert_bplt_to_csv read_header at hcontra
    rcases hh : read_header_from_handle d 0 with e | rh
    · rw [hh, exceptBind_error] at hcontra
      injection hcontra with hc1
      rcases read_header_error_cases d 0 e hh with h1 | h1 | h1 | h1 <;>
        rw [h1] at hc1 <;> cases hc1
    · rw [hh, exceptBind_ok] at hcontra
      dsimp only at hcontra
      rw [if_neg (fun hand => absurd hand.1 (by omega))] at hcontra
      rcases hbf : read_bplt_file d (some rh.1) with e2 | bf
      · rw [hbf, exceptBind_error] at hcontra
        injection hcontra with hc1
        have := read_bplt_file_some_error d rh.1 e2 hbf
        rw [this] at hc1
        cases hc1
      · rw [hbf, exceptBind_ok] at hcontra
        rcases hup : upsample_and_combine_channels bf.2 with _ | t
        · rw [hup] at hcontra
          injection hcontra with hc1
          cases hc1
        · rw [hup] at hcontra
          cases hcontra

set_option maxRecDepth 8000 in
/-- C3 witness: `sampleBig` declares 1000 × 10000 = 10 000 000 cells and
carries no channel data at all; with `max_cells = 100` the conversion fails
with the size-limit error at header time. -/
theorem C3_witness :
    convert_bplt_to_csv sampleBig 100 = Except.error .sizeLimitExceeded :=
  (C3_size_guard sampleBig 100).1 sampleBigHeader 78 (by rfl)
    (by norm_num) (by norm_num [sampleBigHeader])

/-! ## Helper lemmas about the reconciler -/

/-- The interpolant `interp1d` produces, as a total function (`0` when scipy
would have raised); used only to state results about successful calls. -/
def interpFn (xs ys : List ℚ) : ℚ → ℚ :=
  (interp1d xs ys).getD (fun _ => 0)

/-- The column the combine loop produces for one channel, given the reference
time axis `rt` and the maximal sample count `m`. -/
def colOf {ν : Type} (rt : List ℚ) (m : Nat) (x : ν × DF) : ν × List ℚ :=
  if x.2.time.length < m then (x.1, rt.map (interpFn x.2.time x.2.vals))
  else (x.1, x.2.vals)

/-- Piecewise-linear interpolation over an explicit point list (at least two
points; `0` otherwise), the function `interp1d` evaluates once its input is
sorted. -/
def interpAt (pts : List (ℚ × ℚ)) (t : ℚ) : ℚ :=
  match pts with
  | p :: q :: rest => interpPts p q rest t
  | _ => 0

theorem foldlPick_spec {ν : Type} (xs : List (ν × DF)) :
    ∀ x : ν × DF,
      (xs.foldl pickStep x = x ∧
        ∀ y ∈ xs, y.2.time.length ≤ x.2.time.length) ∨
      (∃ l1 l2, xs = l1 ++ (xs.foldl pickStep x) :: l2 ∧
        x.2.time.length < (xs.foldl pickStep x).2.time.length ∧
        (∀ y ∈ l1, y.2.time.length < (xs.foldl pickStep x).2.time.length) ∧
        (∀ y ∈ l2, y.2.time.length ≤ (xs.foldl pickStep x).2.time.length)) := by
  induction xs with
  | nil => intro x; exact Or.inl ⟨rfl, by simp⟩
  | cons z zs ih =>
      intro x
      by_cases hc : x.2.time.length < z.2.time.length
      · have hf : (z :: zs).foldl pickStep x = zs.foldl pickStep z := by
          simp [List.foldl_cons, pickStep, hc]
        rw [hf]
        rcases ih z with ⟨hr, hb⟩ | ⟨l1, l2, heq, hx, h1, h2⟩
        · right
          refine ⟨[], zs, ?_, ?_, by simp, ?_⟩
          · simp [hr]
          · rw [hr]; exact hc
          · rw [hr]; exact hb
        · right
          refine ⟨z :: l1, l2, ?_, ?_, ?_, h2⟩
          · rw [List.cons_append, ← heq]
          · exact hc.trans hx
          · intro y hy
            rcases List.mem_cons.mp hy with hy | hy
            · rw [hy]; exact hx
            · exact h1 y hy
      · have hf : (z :: zs).foldl pickStep x = zs.foldl pickStep x := by
          simp [List.foldl_cons, pickStep, hc]
        rw [hf]
        rcases ih x with ⟨hr, hb⟩ | ⟨l1, l2, heq, hx, h1, h2⟩
        · left
          refine ⟨hr, ?_⟩
          intro y hy
          rcases List.mem_cons.mp hy with hy | hy
          · rw [hy]; omega
          · exact hb y hy
        · right
          refine ⟨z :: l1, l2, ?_, hx, ?_, h2⟩
          · rw [List.cons_append, ← heq]
          · intro y hy
            rcases List.mem_cons.mp hy with hy | hy
            · rw [hy]; omega
            · exact h1 y hy

theorem foldlMax_init_le {ν : Type} (l : List (ν × DF)) :
    ∀ a : Nat, a ≤ l.foldl (fun acc x => max acc x.2.time.length) a := by
  induction l with
  | nil => intro a; exact le_refl a
  | cons z zs ih =>
      intro a
      rw [List.foldl_cons]
      exact le_trans (le_max_left a z.2.time.length) (ih _)

theorem mem_le_foldlMax {ν : Type} (l : List (ν × DF)) (y : ν × DF)
    (hy : y ∈ l) :
    ∀ a : Nat, y.2.time.length ≤ l.foldl (fun acc x => max acc x.2.time.length) a := by
  induction l with
  | nil => cases hy
  | cons z zs ih =>
      intro a
      rw [List.foldl_cons]
      rcases List.mem_cons.mp hy with h | h
      · rw [h]
        exact le_trans (le_max_right a z.2.time.length) (foldlMax_init_le zs _)
      · exact ih h _

theorem foldlMax_le {ν : Type} (l : List (ν × DF)) (mm : Nat)
    (hb : ∀ y ∈ l, y.2.time.length ≤ mm) :
    ∀ a : Nat, a ≤ mm → l.foldl (fun acc x => max acc x.2.time.length) a ≤ mm := by
  induction l with
  | nil => intro a ha; exact ha
  | cons z zs ih =>
      intro a ha
      rw [List.foldl_cons]
      refine ih (fun y hy => hb y (List.mem_cons_of_mem z hy)) _ ?_
      exact max_le ha (hb z (List.mem_cons_self z zs))

theorem mem_le_maxSamples {ν : Type} (l : List (ν × DF)) (y : ν × DF)
    (hy : y ∈ l) : y.2.time.length ≤ maxSamples l :=
  mem_le_foldlMax l y hy 0

theorem pickRef_spec {ν : Type} (l : List (ν × DF)) (r : ν × DF)
    (hr : pickRef l = some r) :
    r ∈ l ∧ r.2.time.length = maxSamples l ∧
      ∃ l1 l2, l = l1 ++ r :: l2 ∧
        ∀ y ∈ l1, y.2.time.length < r.2.time.length := by
  match l with
  | [] => cases hr
  | x :: xs =>
    have hrr : xs.foldl pickStep x = r := by
      have : some (xs.foldl pickStep x) = some r := hr
      injection this
    have hmax0 : maxSamples (x :: xs) =
        xs.foldl (fun acc y => max acc y.2.time.length) x.2.time.length := by
      unfold maxSamples
      rw [List.foldl_cons]
      norm_num
    rcases foldlPick_spec xs x with ⟨hfix, hb⟩ | ⟨l1, l2, heq, hx, h1, h2⟩
    · rw [hfix] at hrr
      subst hrr
      refine ⟨List.mem_cons_self x xs, ?_, [], xs, rfl, by simp⟩
      refine le_antisymm (mem_le_maxSamples _ x (List.mem_cons_self x xs)) ?_
      rw [hmax0]
      exact foldlMax_le xs x.2.time.length hb _ (le_refl _)
    · rw [hrr] at heq hx h1 h2
      have hmem : r ∈ x :: xs := by
        rw [heq]
        exact List.mem_cons_of_mem x (List.mem_append_right l1 (List.mem_cons_self r l2))
      refine ⟨hmem, ?_, x :: l1, l2, by rw [List.cons_append, ← heq], ?_⟩
      · refine le_antisymm (mem_le_maxSamples _ r hmem) ?_
        rw [hmax0]
        refine foldlMax_le xs r.2.time.length ?_ _ (le_of_lt hx)
        intro y hy
        rw [heq] at hy
        rcases List.mem_append.mp hy with hy | hy
        · exact le_of_lt (h1 y hy)
        · rcases List.mem_cons.mp hy with hy | hy
          · rw [hy]
          · exact h2 y hy
      · intro y hy
        rcases List.mem_cons.mp hy with hy | hy
        · rw [hy]; exact hx
        · exact h1 y hy

theorem interp1d_isSome (xs ys : List ℚ) (hlen : xs.length = ys.length)
    (h2 : 2 ≤ xs.length) : ∃ f, interp1d xs ys = some f := by
  unfold interp1d
  rw [if_pos hlen]
  have hlz : ((xs.zip ys).insertionSort (fun a b => a.1 ≤ b.1)).length = ys.length := by
    rw [List.length_insertionSort, List.length_zip, hlen, min_self]
  rw [← hlen] at hlz
  rcases hseq : (xs.zip ys).insertionSort (fun a b => a.1 ≤ b.1) with _ | ⟨p, _ | ⟨q, rest⟩⟩
  · rw [hseq] at hlz
    simp at hlz
    omega
  · rw [hseq] at hlz
    simp at hlz
    omega
  · rw [hseq]
    exact ⟨interpPts p q rest, rfl⟩

theorem interp1d_sorted_eq (xs ys : List ℚ) (hlen : xs.length = ys.length)
    (h2 : 2 ≤ xs.length)
    (hsort : (xs.zip ys).Pairwise (fun a b => a.1 < b.1)) :
    interp1d xs ys = some (interpAt (xs.zip ys)) := by
  unfold interp1d
  rw [if_pos hlen]
  have hs : (xs.zip ys).Sorted (fun a b => a.1 ≤ b.1) :=
    hsort.imp (fun h => le_of_lt h)
  rw [List.Sorted.insertionSort_eq hs]
  have hlz : (xs.zip ys).length = ys.length := by
    rw [List.length_zip, hlen, min_self]
  rw [← hlen] at hlz
  rcases hseq : xs.zip ys with _ | ⟨p, _ | ⟨q, rest⟩⟩
  · rw [hseq] at hlz; simp at hlz; omega
  · rw [hseq] at hlz; simp at hlz; omega
  · rfl

theorem interpFn_of_sorted (xs ys : List ℚ) (hlen : xs.length = ys.length)
    (h2 : 2 ≤ xs.length)
    (hsort : (xs.zip ys).Pairwise (fun a b => a.1 < b.1)) :
    interpFn xs ys = interpAt (xs.zip ys) := by
  unfold interpFn
  rw [interp1d_sorted_eq xs ys hlen h2 hsort]
  rfl

theorem buildChannelData_eq {ν : Type} (rt : List ℚ) (m : Nat)
    (l : List (ν × DF))
    (h : ∀ x ∈ l, x.2.time.length < m →
      x.2.time.length = x.2.vals.length ∧ 2 ≤ x.2.time.length) :
    buildChannelData rt m l = some (l.map (colOf rt m)) := by
  induction l with
  | nil => rfl
  | cons x rest ih =>
      have hrest := ih (fun y hy hs => h y (List.mem_cons_of_mem x hy) hs)
      by_cases hs : x.2.time.length < m
      · obtain ⟨hlen, h2⟩ := h x (List.mem_cons_self x rest) hs
        obtain ⟨f, hf⟩ := interp1d_isSome x.2.time x.2.vals hlen h2
        have hfn : interpFn x.2.time x.2.vals = f := by
          unfold interpFn
          rw [hf]
          rfl
        have hcol : colOf rt m x = (x.1, rt.map f) := by
          unfold colOf
          rw [if_pos hs, hfn]
        simp only [buildChannelData, if_pos hs, hf, Option.map_some', hrest,
          List.map_cons, hcol]
      · have hcol : colOf rt m x = (x.1, x.2.vals) := by
          unfold colOf
          rw [if_neg hs]
        simp only [buildChannelData, if_neg hs, hrest, Option.map_some',
          List.map_cons, hcol]

theorem upsample_eq {ν : Type} (l : List (ν × DF)) (r : ν × DF)
    (hr : pickRef l = some r)
    (h : ∀ x ∈ l, x.2.time.length < maxSamples l →
      x.2.time.length = x.2.vals.length ∧ 2 ≤ x.2.time.length) :
    upsample_and_combine_channels l =
      some (r.2.time, l.map (colOf r.2.time (maxSamples l))) := by
  unfold upsample_and_combine_channels
  rw [hr]
  show (match buildChannelData r.2.time (maxSamples l) l with
    | none => none
    | some cols => some (r.2.time, cols)) = _
  rw [buildChannelData_eq r.2.time (maxSamples l) l h]

theorem linterp_at_fst_left (p q : ℚ × ℚ) : linterp p q p.1 = p.2 := by
  unfold linterp
  simp

theorem linterp_at_fst_right (p q : ℚ × ℚ) (h : p.1 ≠ q.1) :
    linterp p q q.1 = q.2 := by
  unfold linterp
  rw [mul_div_assoc, div_self (sub_ne_zero.mpr (Ne.symm h))]
  ring

theorem interpPts_first (p q : ℚ × ℚ) (l2 : List (ℚ × ℚ)) (t : ℚ)
    (ht : t ≤ q.1) : interpPts p q l2 t = linterp p q t := by
  cases l2 with
  | nil => rfl
  | cons r tl => simp only [interpPts, if_pos ht]

theorem interpAt_cons_of_lt (a b : ℚ × ℚ) (tl : List (ℚ × ℚ)) (t : ℚ)
    (htl : tl ≠ []) (hb : ¬t ≤ b.1) :
    interpAt (a :: b :: tl) t = interpAt (b :: tl) t := by
  cases tl with
  | nil => exact absurd rfl htl
  | cons c tl2 =>
      show interpPts a b (c :: tl2) t = interpPts b c tl2 t
      simp only [interpPts, if_neg hb]

theorem interpAt_low (p q : ℚ × ℚ) (rest : List (ℚ × ℚ)) (t : ℚ)
    (hsort : (p :: q :: rest).Pairwise (fun a b => a.1 < b.1)) (ht : t ≤ p.1) :
    interpAt (p :: q :: rest) t = linterp p q t := by
  have hpq : p.1 < q.1 :=
    (List.pairwise_cons.mp hsort).1 q (List.mem_cons_self q rest)
  exact interpPts_first p q rest t (le_trans ht (le_of_lt hpq))

theorem interpAt_high (l1 : List (ℚ × ℚ)) :
    ∀ (p q : ℚ × ℚ) (t : ℚ),
      ((l1 ++ [p, q]).Pairwise (fun a b => a.1 < b.1)) → q.1 ≤ t →
      interpAt (l1 ++ [p, q]) t = linterp p q t := by
  induction l1 with
  | nil => intro p q t _ _; rfl
  | cons a l1x ih =>
      intro p q t hsort ht
      have hsortx : ((l1x ++ [p, q]).Pairwise (fun a b => a.1 < b.1)) :=
        (List.pairwise_cons.mp hsort).2
      cases hl : l1x with
      | nil =>
          subst hl
          have hpq : p.1 < q.1 :=
            (List.pairwise_cons.mp hsortx).1 q (by simp)
          show interpPts a p [q] t = linterp p q t
          simp only [interpPts, if_neg (by push_neg; exact lt_of_lt_of_le hpq ht :
            ¬t ≤ p.1)]
      | cons a2 l1y =>
          subst hl
          have ha2q : a2.1 < q.1 := by
            rcases List.pairwise_cons.mp hsortx with ⟨hfirst, _⟩
            exact hfirst q (by simp)
          have hstep := interpAt_cons_of_lt a a2 (l1y ++ [p, q]) t (by simp)
            (by push_neg; exact lt_of_lt_of_le ha2q ht)
          rw [show (a :: a2 :: l1y) ++ [p, q] = a :: a2 :: (l1y ++ [p, q]) from rfl,
            hstep]
          exact ih p q t hsortx ht

theorem interpAt_mid (l1 : List (ℚ × ℚ)) :
    ∀ (p q : ℚ × ℚ) (l2 : List (ℚ × ℚ)) (t : ℚ),
      ((l1 ++ p :: q :: l2).Pairwise (fun a b => a.1 < b.1)) → p.1 ≤ t → t ≤ q.1 →
      interpAt (l1 ++ p :: q :: l2) t = linterp p q t := by
  induction l1 with
  | nil =>
      intro p q l2 t _ _ ht2
      exact interpPts_first p q l2 t ht2
  | cons a l1x ih =>
      intro p q l2 t hsort ht1 ht2
      have hsortx : ((l1x ++ p :: q :: l2).Pairwise (fun a b => a.1 < b.1)) :=
        (List.pairwise_cons.mp hsort).2
      cases hl : l1x with
      | nil =>
          subst hl
          have hap : a.1 < p.1 :=
            (List.pairwise_cons.mp hsort).1 p (by simp)
          have hpq : p.1 < q.1 :=
            (List.pairwise_cons.mp hsortx).1 q (by simp)
          show interpPts a p (q :: l2) t = linterp p q t
          by_cases hc : t ≤ p.1
          · have hteq : t = p.1 := le_antisymm hc ht1
            simp only [interpPts, if_pos hc, hteq]
            rw [linterp_at_fst_right a p (ne_of_lt hap), linterp_at_fst_left,
              if_pos (le_refl p.1)]
          · simp only [interpPts, if_neg hc]
            exact interpPts_first p q l2 t ht2
      | cons a2 l1y =>
          subst hl
          have ha2p : a2.1 < p.1 := by
            rcases List.pairwise_cons.mp hsortx with ⟨hfirst, _⟩
            exact hfirst p (by simp)
          have hstep := interpAt_cons_of_lt a a2 (l1y ++ p :: q :: l2) t (by simp)
            (by push_neg; exact lt_of_lt_of_le ha2p ht1)
          rw [show (a :: a2 :: l1y) ++ p :: q :: l2 = a :: a2 :: (l1y ++ p :: q :: l2)
            from rfl, hstep]
          exact ih p q l2 t hsortx ht1 ht2

/-! ## Claims C1, C4, C6 -/

/-- C1: on the mapping with channel `A` (times `[0,1,2]`, values
`[10,20,30]`) before channel `B` (times `[0,2]`, values `[100,200]`), the
reconciler selects `A` as reference and returns the merged table with time
column `[0,1,2]`, `A` copied verbatim and `B` resampled to `[100,150,200]`. -/
theorem C1_two_channel_end_to_end :
    pickRef [("A", (⟨[0, 1, 2], [10, 20, 30]⟩ : DF)), ("B", ⟨[0, 2], [100, 200]⟩)] =
      some ("A", ⟨[0, 1, 2], [10, 20, 30]⟩) ∧
    upsample_and_combine_channels
      [("A", (⟨[0, 1, 2], [10, 20, 30]⟩ : DF)), ("B", ⟨[0, 2], [100, 200]⟩)] =
      some ([0, 1, 2], [("A", [10, 20, 30]), ("B", [100, 150, 200])]) := by
  constructor
  · simp [pickRef, pickStep]
  · simp [upsample_and_combine_channels, pickRef, pickStep, maxSamples,
      buildChannelData, interp1d, interpPts, linterp, List.insertionSort,
      List.orderedInsert]
    norm_num

/-- C4 counterexample: a non-empty mapping of well-formed channel series on
which the reconciler produces no merged table at all — channel `P` has a
single sample, fewer than the maximum of 2, and `scipy.interpolate.interp1d`
raises on a one-point input, aborting the whole combine step. -/
theorem C4_counterexample :
    upsample_and_combine_channels
      [("P", (⟨[0], [1]⟩ : DF)), ("Q", ⟨[0, 1], [1, 2]⟩)] = none := by
  simp [upsample_and_combine_channels, pickRef, pickStep, maxSamples,
    buildChannelData, interp1d, List.insertionSort, List.orderedInsert]

/-- C4 (amended): for every non-empty mapping of channel series in which
every channel with fewer samples than the maximum has at least two samples,
the reconciler picks as reference the channel with the largest sample count
(ties to the first-seen entry), copies every maximal-count channel verbatim,
and produces the reference time column plus one column per channel in
first-seen order, all of length equal to the reference count. -/
theorem C4_reference_selection_and_layout {ν : Type} (l : List (ν × DF))
    (hne : l ≠ [])
    (hwf : ∀ x ∈ l, x.2.time.length = x.2.vals.length)
    (h2 : ∀ x ∈ l, x.2.time.length < maxSamples l → 2 ≤ x.2.time.length) :
    ∃ r cols,
      pickRef l = some r ∧ r ∈ l ∧
      r.2.time.length = maxSamples l ∧
      (∃ l1 l2, l = l1 ++ r :: l2 ∧
        ∀ y ∈ l1, y.2.time.length < r.2.time.length) ∧
      upsample_and_combine_channels l = some (r.2.time, cols) ∧
      cols.map Prod.fst = l.map Prod.fst ∧
      (∀ (i : Nat) (x : ν × DF), l[i]? = some x →
        x.2.time.length = maxSamples l → cols[i]? = some (x.1, x.2.vals)) ∧
      (∀ c ∈ cols, c.2.length = maxSamples l) := by
  obtain ⟨r, hr⟩ : ∃ r, pickRef l = some r := by
    cases l with
    | nil => exact absurd rfl hne
    | cons x xs => exact ⟨xs.foldl pickStep x, rfl⟩
  obtain ⟨hmem, hrlen, hsplit⟩ := pickRef_spec l r hr
  have hcomb : ∀ x ∈ l, x.2.time.length < maxSamples l →
      x.2.time.length = x.2.vals.length ∧ 2 ≤ x.2.time.length :=
    fun x hx hs => ⟨hwf x hx, h2 x hx hs⟩
  have hup := upsample_eq l r hr hcomb
  refine ⟨r, l.map (colOf r.2.time (maxSamples l)), hr, hmem, hrlen, hsplit,
    hup, ?_, ?_, ?_⟩
  · rw [List.map_map]
    have hfst : (Prod.fst ∘ colOf r.2.time (maxSamples l) : ν × DF → ν) =
        Prod.fst := by
      funext x
      unfold colOf Function.comp
      dsimp only
      split <;> rfl
    rw [hfst]
  · intro i x hix hxlen
    rw [List.getElem?_map, hix]
    simp only [Option.map_some']
    unfold colOf
    rw [if_neg (by omega)]
  · intro c hc
    obtain ⟨x, hx, hcx⟩ := List.mem_map.mp hc
    have hxle := mem_le_maxSamples l x hx
    by_cases hs : x.2.time.length < maxSamples l
    · rw [← hcx]
      unfold colOf
      rw [if_pos hs]
      simp only [List.length_map]
      exact hrlen
    · rw [← hcx]
      unfold colOf
      rw [if_neg hs]
      have := hwf x hx
      simp only []
      omega

/-- C4 witness: a concrete two-channel mapping satisfying the amended
hypotheses; the theorem yields the reference and the full layout. -/
theorem C4_witness :
    ∃ r cols,
      pickRef [("R", (⟨[0, 1], [5, 6]⟩ : DF)), ("S", ⟨[0, 1, 2], [7, 8, 9]⟩)] =
        some r ∧
      r ∈ [("R", (⟨[0, 1], [5, 6]⟩ : DF)), ("S", ⟨[0, 1, 2], [7, 8, 9]⟩)] ∧
      r.2.time.length =
        maxSamples [("R", (⟨[0, 1], [5, 6]⟩ : DF)), ("S", ⟨[0, 1, 2], [7, 8, 9]⟩)] ∧
      (∃ l1 l2,
        [("R", (⟨[0, 1], [5, 6]⟩ : DF)), ("S", ⟨[0, 1, 2], [7, 8, 9]⟩)] =
          l1 ++ r :: l2 ∧
        ∀ y ∈ l1, y.2.time.length < r.2.time.length) ∧
      upsample_and_combine_channels
        [("R", (⟨[0, 1], [5, 6]⟩ : DF)), ("S", ⟨[0, 1, 2], [7, 8, 9]⟩)] =
        some (r.2.time, cols) ∧
      cols.map Prod.fst =
        ([("R", (⟨[0, 1], [5, 6]⟩ : DF)), ("S", ⟨[0, 1, 2], [7, 8, 9]⟩)]).map
          Prod.fst ∧
      (∀ (i : Nat) (x : String × DF),
        ([("R", (⟨[0, 1], [5, 6]⟩ : DF)), ("S", ⟨[0, 1, 2], [7, 8, 9]⟩)])[i]? =
          some x →
        x.2.time.length =
          maxSamples [("R", (⟨[0, 1], [5, 6]⟩ : DF)), ("S", ⟨[0, 1, 2], [7, 8, 9]⟩)] →
        cols[i]? = some (x.1, x.2.vals)) ∧
      (∀ c ∈ cols, c.2.length =
        maxSamples [("R", (⟨[0, 1], [5, 6]⟩ : DF)), ("S", ⟨[0, 1, 2], [7, 8, 9]⟩)]) :=
  C4_reference_selection_and_layout
    [("R", (⟨[0, 1], [5, 6]⟩ : DF)), ("S", ⟨[0, 1, 2], [7, 8, 9]⟩)]
    (by decide) (by decide) (by decide)

/-- C6 counterexample: channel `X` has a single sample, fewer than the
maximum; the claimed interpolated output values for it do not exist because
the reconciler fails on the whole mapping (scipy raises on one-point input)
instead of producing extrapolated values. -/
theorem C6_counterexample :
    upsample_and_combine_channels
      [("X", (⟨[5], [7]⟩ : DF)), ("Y", ⟨[0, 1, 2], [0, 1, 4]⟩)] = none := by
  simp [upsample_and_combine_channels, pickRef, pickStep, maxSamples,
    buildChannelData, interp1d, List.insertionSort, List.orderedInsert]

theorem interp1d_eq_some_sorted (xs ys : List ℚ) (hlen : xs.length = ys.length)
    (h2 : 2 ≤ xs.length) :
    interp1d xs ys =
      some (interpAt ((xs.zip ys).insertionSort (fun a b => a.1 ≤ b.1))) := by
  unfold interp1d
  rw [if_pos hlen]
  have hlz : ((xs.zip ys).insertionSort (fun a b => a.1 ≤ b.1)).length = ys.length := by
    rw [List.length_insertionSort, List.length_zip, hlen, min_self]
  rw [← hlen] at hlz
  rcases hseq : (xs.zip ys).insertionSort (fun a b => a.1 ≤ b.1) with _ | ⟨p, _ | ⟨q, rest⟩⟩
  · rw [hseq] at hlz; simp at hlz; omega
  · rw [hseq] at hlz; simp at hlz; omega
  · rw [hseq]
    rfl

theorem interpFn_eq_interpAt_sorted (xs ys : List ℚ) (hlen : xs.length = ys.length)
    (h2 : 2 ≤ xs.length) :
    interpFn xs ys = interpAt ((xs.zip ys).insertionSort (fun a b => a.1 ≤ b.1)) := by
  unfold interpFn
  rw [interp1d_eq_some_sorted xs ys hlen h2]
  rfl

/-- C6 (amended): every below-maximum channel with at least two samples is
resampled by evaluating, at each reference time point, the piecewise-linear
interpolant over that channel's own `(time, value)` pairs sorted by time (the
resampler sorts internally, so unsorted channels are handled; for an
already-sorted channel the interpolant is over the pairs exactly as given);
on distinct sample times, a point left of the first sample or right of the
last one lies on the extended first/last segment (linear extrapolation along
its slope, not clamping and not an undefined value), a point between two
consecutive sample times lies on the segment joining them, and for a
two-point channel every output value lies on the single line through its two
points. -/
theorem C6_piecewise_linear_with_extrapolation (ν : Type) :
    (∀ (l : List (ν × DF)) (r : ν × DF) (i : Nat) (x : ν × DF),
      (∀ y ∈ l, y.2.time.length = y.2.vals.length) →
      (∀ y ∈ l, y.2.time.length < maxSamples l → 2 ≤ y.2.time.length) →
      pickRef l = some r → l[i]? = some x → x.2.time.length < maxSamples l →
      ∃ cols, upsample_and_combine_channels l = some (r.2.time, cols) ∧
        cols[i]? = some (x.1, r.2.time.map
          (interpAt ((x.2.time.zip x.2.vals).insertionSort (fun a b => a.1 ≤ b.1))))) ∧
    (∀ (xs ys : List ℚ), xs.length = ys.length → 2 ≤ xs.length →
      (xs.zip ys).Pairwise (fun a b => a.1 < b.1) →
      interpFn xs ys = interpAt (xs.zip ys)) ∧
    (∀ (p q : ℚ × ℚ) (rest : List (ℚ × ℚ)) (t : ℚ),
      (p :: q :: rest).Pairwise (fun a b => a.1 < b.1) → t ≤ p.1 →
      interpAt (p :: q :: rest) t = linterp p q t) ∧
    (∀ (l1 : List (ℚ × ℚ)) (p q : ℚ × ℚ) (t : ℚ),
      (l1 ++ [p, q]).Pairwise (fun a b => a.1 < b.1) → q.1 ≤ t →
      interpAt (l1 ++ [p, q]) t = linterp p q t) ∧
    (∀ (l1 : List (ℚ × ℚ)) (p q : ℚ × ℚ) (l2 : List (ℚ × ℚ)) (t : ℚ),
      (l1 ++ p :: q :: l2).Pairwise (fun a b => a.1 < b.1) → p.1 ≤ t → t ≤ q.1 →
      interpAt (l1 ++ p :: q :: l2) t = linterp p q t) ∧
    (∀ x0 x1 y0 y1 t : ℚ, x0 < x1 →
      interpFn [x0, x1] [y0, y1] t = y0 + (y1 - y0) * (t - x0) / (x1 - x0)) := by
  refine ⟨?_, interpFn_of_sorted, interpAt_low, interpAt_high, interpAt_mid, ?_⟩
  · intro l r i x hwf hsmall hr hix hxs
    have hcomb : ∀ y ∈ l, y.2.time.length < maxSamples l →
        y.2.time.length = y.2.vals.length ∧ 2 ≤ y.2.time.length :=
      fun y hy hs => ⟨hwf y hy, hsmall y hy hs⟩
    have hup := upsample_eq l r hr hcomb
    have hxmem : x ∈ l := List.getElem?_mem hix
    refine ⟨l.map (colOf r.2.time (maxSamples l)), hup, ?_⟩
    rw [List.getElem?_map, hix]
    simp only [Option.map_some']
    unfold colOf
    rw [if_pos hxs,
      interpFn_eq_interpAt_sorted x.2.time x.2.vals (hwf x hxmem) (hsmall x hxmem hxs)]
  · intro x0 x1 y0 y1 t hx
    have hfn : interp1d [x0, x1] [y0, y1] = some (interpPts (x0, y0) (x1, y1) []) := by
      unfold interp1d
      rw [if_pos (show [x0, x1].length = [y0, y1].length by rfl)]
      have hzip : ([x0, x1].zip [y0, y1]) = [(x0, y0), (x1, y1)] := rfl
      rw [hzip, List.Sorted.insertionSort_eq]
      exact List.pairwise_pair.mpr (le_of_lt hx)
    unfold interpFn
    rw [hfn]
    show interpPts (x0, y0) (x1, y1) [] t = _
    unfold interpPts linterp
    rfl

/-- C6 witness: channel `U` has unsorted times `[2,0]` below the maximum of
3, and its output column is the interpolant over its time-sorted pairs
evaluated on the reference axis; and for the two-point channel with times
`[0,2]` and values `[100,200]`, the value produced at the out-of-range
reference time `3` is `250`, on the line through the two points (linear
extrapolation, not the clamped boundary value `200`). -/
theorem C6_witness :
    (∃ cols, upsample_and_combine_channels
        [("U", (⟨[2, 0], [200, 100]⟩ : DF)), ("V", ⟨[0, 1, 2], [0, 0, 0]⟩)] =
        some ([0, 1, 2], cols) ∧
      cols[0]? = some ("U", [0, 1, 2].map
        (interpAt (([2, 0].zip [200, 100]).insertionSort (fun a b => a.1 ≤ b.1))))) ∧
    interpFn [0, 2] [100, 200] 3 = 250 := by
  constructor
  · exact (C6_piecewise_linear_with_extrapolation String).1
      [("U", (⟨[2, 0], [200, 100]⟩ : DF)), ("V", ⟨[0, 1, 2], [0, 0, 0]⟩)]
      ("V", ⟨[0, 1, 2], [0, 0, 0]⟩) 0 ("U", ⟨[2, 0], [200, 100]⟩)
      (by decide) (by decide) (by rfl) (by rfl) (by decide)
  · have h := (C6_piecewise_linear_with_extrapolation Unit).2.2.2.2.2
      0 2 100 200 3 (by norm_num)
    rw [h]
    norm_num

/-! ## Helper lemmas about the data decoder dictionary -/

theorem dictInsert_keys {ν α : Type} [DecidableEq ν] (k : ν) (v : α)
    (m : List (ν × α)) :
    (dictInsert k v m).map Prod.fst =
      if k ∈ m.map Prod.fst then m.map Prod.fst else m.map Prod.fst ++ [k] := by
  induction m with
  | nil => simp [dictInsert]
  | cons x m ih =>
      by_cases hk : x.1 = k
      · rw [show dictInsert k v (x :: m) = (k, v) :: m from by
          rw [show (x : ν × α) = (x.1, x.2) from rfl, dictInsert, if_pos hk]]
        simp [hk]
      · rw [show dictInsert k v (x :: m) = (x.1, x.2) :: dictInsert k v m from by
          rw [show (x : ν × α) = (x.1, x.2) from rfl, dictInsert, if_neg hk]]
        simp only [List.map_cons, ih]
        by_cases hm : k ∈ m.map Prod.fst
        · rw [if_pos hm, if_pos (List.mem_cons_of_mem x.1 hm)]
        · rw [if_neg hm, if_neg ?_, List.cons_append]
          intro hmem
          rcases List.mem_cons.mp hmem with h | h
          · exact hk h.symm
          · exact hm h

theorem dictInsert_keys_nodup {ν α : Type} [DecidableEq ν] (k : ν) (v : α)
    (m : List (ν × α)) (h : (m.map Prod.fst).Nodup) :
    ((dictInsert k v m).map Prod.fst).Nodup := by
  rw [dictInsert_keys]
  by_cases hm : k ∈ m.map Prod.fst
  · rw [if_pos hm]; exact h
  · rw [if_neg hm]
    simp [List.nodup_append, h, hm]

theorem dictFind_insert {ν α : Type} [DecidableEq ν] (k : ν) (v : α)
    (m : List (ν × α)) : dictFind k (dictInsert k v m) = some v := by
  induction m with
  | nil => simp [dictInsert, dictFind]
  | cons x m ih =>
      by_cases hk : x.1 = k
      · rw [show dictInsert k v (x :: m) = (k, v) :: m from by
          rw [show (x : ν × α) = (x.1, x.2) from rfl, dictInsert, if_pos hk]]
        simp [dictFind]
      · rw [show dictInsert k v (x :: m) = (x.1, x.2) :: dictInsert k v m from by
          rw [show (x : ν × α) = (x.1, x.2) from rfl, dictInsert, if_neg hk]]
        rw [dictFind, if_neg hk]
        exact ih

theorem readDataCore_keys_nodup (d : List Nat) (names : List (List Nat)) :
    ∀ (pos : Nat) (acc : List (List Nat × DF)),
      (acc.map Prod.fst).Nodup →
      (((readDataCore d names pos acc).1).map Prod.fst).Nodup := by
  induction names with
  | nil => intro pos acc h; exact h
  | cons nm rest ih =>
      intro pos acc h
      rw [readDataCore]
      rcases hb : readChannelBlock d pos with ⟨b, p⟩
      cases b with
      | none => exact ih p acc h
      | some df => exact ih p (dictInsert nm df acc) (dictInsert_keys_nodup nm df acc h)

theorem readDataCore_pos_of_length (d : List Nat) (names1 : List (List Nat)) :
    ∀ (names2 : List (List Nat)) (pos : Nat) (acc1 acc2 : List (List Nat × DF)),
      names1.length = names2.length →
      (readDataCore d names1 pos acc1).2 = (readDataCore d names2 pos acc2).2 := by
  induction names1 with
  | nil =>
      intro names2 pos acc1 acc2 hlen
      cases names2 with
      | nil => rfl
      | cons b r2 => cases hlen
  | cons a r1 ih =>
      intro names2 pos acc1 acc2 hlen
      cases names2 with
      | nil => cases hlen
      | cons b r2 =>
          rw [readDataCore, readDataCore]
          rcases hb : readChannelBlock d pos with ⟨blk, p⟩
          cases blk with
          | none => exact ih r2 p acc1 acc2 (by simpa using hlen)
          | some df =>
              exact ih r2 p (dictInsert a df acc1) (dictInsert b df acc2)
                (by simpa using hlen)

theorem buildChannelData_fst {ν : Type} (rt : List ℚ) (mm : Nat)
    (m : List (ν × DF)) :
    ∀ cols, buildChannelData rt mm m = some cols →
      cols.map Prod.fst = m.map Prod.fst := by
  induction m with
  | nil =>
      intro cols h
      rw [buildChannelData] at h
      injection h with h
      rw [← h]
      rfl
  | cons x rest ih =>
      intro cols h
      rw [buildChannelData] at h
      by_cases hs : x.2.time.length < mm
      · rw [if_pos hs] at h
        rcases hi : interp1d x.2.time x.2.vals with _ | f
        · rw [hi] at h
          cases h
        · rw [hi] at h
          simp only [Option.map_some'] at h
          rcases hrest : buildChannelData rt mm rest with _ | cols2
          · rw [hrest] at h
            cases h
          · rw [hrest] at h
            simp only [Option.map_some'] at h
            injection h with h
            rw [← h]
            simp only [List.map_cons]
            rw [ih cols2 hrest]
      · rw [if_neg hs] at h
        rcases hrest : buildChannelData rt mm rest with _ | cols2
        · rw [hrest] at h
          cases h
        · rw [hrest] at h
          simp only [Option.map_some'] at h
          injection h with h
          rw [← h]
          simp only [List.map_cons]
          rw [ih cols2 hrest]

theorem upsample_cols_fst {ν : Type} (m : List (ν × DF)) (tc : List ℚ)
    (cols : List (ν × List ℚ))
    (h : upsample_and_combine_channels m = some (tc, cols)) :
    cols.map Prod.fst = m.map Prod.fst := by
  unfold upsample_and_combine_channels at h
  rcases hp : pickRef m with _ | r
  · rw [hp] at h
    cases h
  · rw [hp] at h
    dsimp only at h
    rcases hbuild : buildChannelData r.2.time (maxSamples m) m with _ | cols2
    · rw [hbuild] at h
      cases h
    · rw [hbuild] at h
      injection h with h
      have hc : cols2 = cols := congrArg Prod.snd h
      rw [← hc]
      exact buildChannelData_fst r.2.time (maxSamples m) m cols2 hbuild

/-! ## Claims C2, C5, C10 -/

/-- C2: a channel is excluded from the decoded mapping (without aborting)
exactly when its count field is short, its element count is zero, or its time
or value payload is short; and `read_data` fails with the empty-channel-set
error exactly when the resulting mapping is empty, returning the mapping
unchanged otherwise. -/
theorem C2_skip_conditions_and_empty_set :
    ∀ (d : List Nat) (pos : Nat),
      ((readChannelBlock d pos).1 = none ↔
        d.length - pos < 4 ∨
        uLE ((d.drop pos).take 4) = 0 ∨
        d.length - (pos + 4) < 8 * uLE ((d.drop pos).take 4) ∨
        d.length - (pos + 4 + 8 * uLE ((d.drop pos).take 4)) <
          4 * uLE ((d.drop pos).take 4)) ∧
      (∀ (nm : List Nat) (rest : List (List Nat)) (acc : List (List Nat × DF)),
        (readChannelBlock d pos).1 = none →
        readDataCore d (nm :: rest) pos acc =
          readDataCore d rest (readChannelBlock d pos).2 acc) ∧
      (∀ names, read_data d names pos = Except.error .emptyChannelSet ↔
        (readDataCore d names pos []).1 = []) ∧
      (∀ names, (readDataCore d names pos []).1 ≠ [] →
        read_data d names pos = Except.ok (readDataCore d names pos [])) := by
  intro d pos
  refine ⟨?_, ?_, ?_, ?_⟩
  · unfold readChannelBlock hread
    dsimp only
    have hl1 : ((d.drop pos).take 4).length = min 4 (d.length - pos) := by
      rw [List.length_take, List.length_drop]
    by_cases hc1 : ((d.drop pos).take 4).length < 4
    · rw [if_pos hc1]
      simp only [true_iff]
      omega
    · rw [if_neg hc1]
      have h4 : ((d.drop pos).take 4).length = 4 := by omega
      rw [h4]
      by_cases hc2 : uLE ((d.drop pos).take 4) = 0
      · rw [if_pos hc2]
        simp only [true_iff]
        omega
      · rw [if_neg hc2]
        have hl2 : ((d.drop (pos + 4)).take (8 * uLE ((d.drop pos).take 4))).length =
            min (8 * uLE ((d.drop pos).take 4)) (d.length - (pos + 4)) := by
          rw [List.length_take, List.length_drop]
        by_cases hc3 : ((d.drop (pos + 4)).take (8 * uLE ((d.drop pos).take 4))).length <
            8 * uLE ((d.drop pos).take 4)
        · rw [if_pos hc3]
          simp only [true_iff]
          omega
        · rw [if_neg hc3]
          have h8 : ((d.drop (pos + 4)).take (8 * uLE ((d.drop pos).take 4))).length =
              8 * uLE ((d.drop pos).take 4) := by omega
          rw [h8]
          have hl3 : ((d.drop (pos + 4 + 8 * uLE ((d.drop pos).take 4))).take
              (4 * uLE ((d.drop pos).take 4))).length =
              min (4 * uLE ((d.drop pos).take 4))
                (d.length - (pos + 4 + 8 * uLE ((d.drop pos).take 4))) := by
            rw [List.length_take, List.length_drop]
          by_cases hc4 : ((d.drop (pos + 4 + 8 * uLE ((d.drop pos).take 4))).take
              (4 * uLE ((d.drop pos).take 4))).length < 4 * uLE ((d.drop pos).take 4)
          · rw [if_pos hc4]
            simp only [true_iff]
            omega
          · rw [if_neg hc4]
            constructor
            · intro hx
              exact Option.noConfusion hx
            · intro hdisj
              exfalso
              omega
  · intro nm rest acc h
    have hx : readChannelBlock d pos = (none, (readChannelBlock d pos).2) := by
      rw [← h]
    rw [readDataCore, hx]
  · intro names
    unfold read_data
    dsimp only
    by_cases hr : (readDataCore d names pos []).1 = []
    · rw [if_pos hr]
      simp [hr]
    · rw [if_neg hr]
      simp [hr]
  · intro names hr
    unfold read_data
    dsimp only
    rw [if_neg hr]

/-- C2 witness: on the empty stream, the single declared channel is skipped
for want of count bytes, the mapping is empty, and `read_data` raises the
empty-channel-set error. -/
theorem C2_witness : read_data [] [[65]] 0 = Except.error .emptyChannelSet :=
  ((C2_skip_conditions_and_empty_set [] 0).2.2.1 [[65]]).mpr (by decide)

/-- C5: reading a channel name consumes one null-terminated string for
version 1.1.x and, for every other version value (including the `(1,0,0)`
fallback produced when the version suffix fails to parse), first consumes
bytes up to and including one NULL and then a second null-terminated string;
names decoding to `""` or case-insensitively to `"NULL"` are not appended,
so the channel list can be shorter than the declared column count. -/
theorem C5_channel_name_version_rules :
    (∀ (d : List Nat) (pos : Nat) (p : Int),
      read_channel_name d (some (1, 1, p)) pos =
        (if (read_until_null d pos).1 = [] ∨
            (read_until_null d pos).1.map pyUpper = strBytes "NULL" then []
          else (read_until_null d pos).1, (read_until_null d pos).2)) ∧
    (∀ (d : List Nat) (pos : Nat) (v : Option (Int × Int × Int)),
      isVersion11 v = false →
      read_channel_name d v pos =
        (if (read_until_null d (skipUntilNull d pos)).1 = [] ∨
            (read_until_null d (skipUntilNull d pos)).1.map pyUpper =
              strBytes "NULL" then []
          else (read_until_null d (skipUntilNull d pos)).1,
          (read_until_null d (skipUntilNull d pos)).2)) ∧
    (∀ (d : List Nat) (vt : Int × Int × Int) (n pos : Nat),
      (readChannelNames d vt n pos).1.length ≤ n ∧
        ∀ nm ∈ (readChannelNames d vt n pos).1, nm ≠ []) ∧
    parse_version (strBytes "ECI Binary Plot File Version x.y.z") = (1, 0, 0) ∧
    (readChannelNames ([0] ++ strBytes "NULL" ++ [0]) (1, 0, 0) 1 0).1.length < 1 := by
  refine ⟨?_, ?_, ?_, by decide, by decide⟩
  · intro d pos p
    unfold read_channel_name
    rw [show isVersion11 (some (1, 1, p)) = true from rfl, if_pos rfl]
  · intro d pos v hv
    unfold read_channel_name
    rw [hv]
    rfl
  · intro d vt n
    induction n with
    | zero => intro pos; exact ⟨le_refl 0, by intro nm h; cases h⟩
    | succ k ih =>
        intro pos
        rw [readChannelNames]
        dsimp only
        by_cases he : (read_channel_name d (some vt) pos).1 = []
        · rw [if_pos he]
          obtain ⟨ihl, ihm⟩ := ih (read_channel_name d (some vt) pos).2
          exact ⟨le_trans ihl (Nat.le_succ k), ihm⟩
        · rw [if_neg he]
          obtain ⟨ihl, ihm⟩ := ih (read_channel_name d (some vt) pos).2
          refine ⟨by simpa using Nat.succ_le_succ ihl, ?_⟩
          intro nm hm
          rcases List.mem_cons.mp hm with h | h
          · rw [h]; exact he
          · exact ihm nm h

/-- C5 witness: for a non-1.1 version the placeholder field `"x\0"` is
consumed and the second null-terminated string `"Ch"` becomes the name. -/
theorem C5_witness :
    read_channel_name (strBytes "x" ++ [0] ++ strBytes "Ch" ++ [0])
      (some (4, 2, 0)) 0 = ([67, 104], 5) := by
  have h := C5_channel_name_version_rules.2.1
    (strBytes "x" ++ [0] ++ strBytes "Ch" ++ [0]) 0 (some (4, 2, 0)) (by decide)
  rw [h]
  decide

/-- C10: the decoded mapping is keyed by channel name — its key list is
duplicate-free; the bytes consumed by the data pass depend only on how many
names are listed, not on the names (so a duplicated name still consumes both
raw blocks, keeping subsequent channels aligned); inserting under an existing
key keeps only the later value; and the merged table has exactly one value
column per mapping entry, so its column names are duplicate-free. -/
theorem C10_duplicate_names_single_column :
    ∀ (d : List Nat),
      (∀ (names : List (List Nat)) (pos : Nat) (acc : List (List Nat × DF)),
        (acc.map Prod.fst).Nodup →
        (((readDataCore d names pos acc).1).map Prod.fst).Nodup) ∧
      (∀ (names1 names2 : List (List Nat)) (pos : Nat)
          (acc1 acc2 : List (List Nat × DF)),
        names1.length = names2.length →
        (readDataCore d names1 pos acc1).2 = (readDataCore d names2 pos acc2).2) ∧
      (∀ (k : List Nat) (v : DF) (m : List (List Nat × DF)),
        dictFind k (dictInsert k v m) = some v) ∧
      (∀ (names : List (List Nat)) (pos : Nat) (tc : List ℚ)
          (cols : List (List Nat × List ℚ)),
        upsample_and_combine_channels (readDataCore d names pos []).1 =
          some (tc, cols) →
        (cols.map Prod.fst).Nodup) := by
  intro d
  refine ⟨readDataCore_keys_nodup d, readDataCore_pos_of_length d,
    dictFind_insert, ?_⟩
  intro names pos tc cols h
  rw [upsample_cols_fst (readDataCore d names pos []).1 tc cols h]
  exact readDataCore_keys_nodup d names pos [] (by simp)

/-- C10 witness: decoding with a duplicated channel name on a stream holding
two one-sample blocks keeps a duplicate-free key list. -/
theorem C10_witness :
    (((readDataCore ([1, 0, 0, 0] ++ List.replicate 12 0 ++
        [1, 0, 0, 0] ++ List.replicate 12 0) [[65], [65]] 0 []).1).map
      Prod.fst).Nodup :=
  (C10_duplicate_names_single_column ([1, 0, 0, 0] ++ List.replicate 12 0 ++
    [1, 0, 0, 0] ++ List.replicate 12 0)).1 [[65], [65]] 0 [] (by simp)

end Bplt
